import Mathlib

/-!
Verification of the provenance-classification and report-synthesis layer
(crates report-types, report_types and uv-resolver/src/resolution/mod.rs).

The distribution data model (crate distribution_types) and small collaborator
types (pypi_types, uv_git, uv_metadata) are not part of the sources under
verification; they are embedded here as minimal Lean types carrying exactly
the fields the verified functions read, with external behaviours (path→URL
conversion, git-reference rendering, metadata reading) modelled from the spec.
-/

namespace Uv

/-- URLs are modelled by their textual form. -/
abbrev Url := String

/-- Modelled from the spec: a filesystem path together with the result of the
external conversion to an absolute file:// URL, which "fails if the path
cannot be made absolute/URL-safe" (url::Url::from_file_path). -/
structure PathBuf where
  repr : String
  fileUrl : Option Url
deriving DecidableEq, Repr

/-- url::Url::from_file_path — succeeds exactly when the path converts. -/
def Url.from_file_path (p : PathBuf) : Except Unit Url :=
  match p.fileUrl with
  | some u => Except.ok u
  | none => Except.error ()

/-- pypi_types::HashDigest: an (algorithm, digest) pair; both sides render as
their own text. -/
structure HashDigest where
  algorithm : String
  digest : String
deriving DecidableEq, Repr

/-- distribution_types::IndexUrl: carries the index URL (.url()). -/
structure IndexUrl where
  url : Url
deriving DecidableEq, Repr

/-- uv_git::GitSha. Its Display renders the commit as a hex string, carried
here directly as the hex field. -/
structure GitSha where
  hex : String
deriving DecidableEq, Repr

/-- Modelled from the spec: uv_git::GitReference is "the user-requested ref
(branch/tag/commit text or none)"; as_str has no textual rendering for the
default-branch reference. -/
inductive GitReference
  | named (text : String)
  | defaultBranch
deriving DecidableEq, Repr

/-- uv_git::GitReference::as_str. -/
def GitReference.as_str : GitReference → Option String
  | .named text => some text
  | .defaultBranch => none

/-- The git facts stored on a Git source distribution: repository() URL,
precise() resolved commit, reference() requested ref. -/
structure GitUrl where
  repository : Url
  precise : Option GitSha
  reference : GitReference
deriving DecidableEq, Repr

/-- distribution_types::BuiltDist. The Registry variant carries the field the
verified code reads from it: best_wheel().index. -/
inductive BuiltDist
  | Registry (bestWheelIndex : IndexUrl)
  | DirectUrl (location : Url)
  | Path (install_path : PathBuf)
deriving DecidableEq, Repr

/-- distribution_types::SourceDist. -/
inductive SourceDist
  | Registry (index : IndexUrl)
  | DirectUrl (location : Url) (subdirectory : Option String)
  | Git (git : GitUrl) (subdirectory : Option String)
  | Path (install_path : PathBuf)
  | Directory (install_path : PathBuf) (editable : Bool)
deriving DecidableEq, Repr

/-- distribution_types::Dist. -/
inductive Dist
  | Built (d : BuiltDist)
  | Source (d : SourceDist)
deriving DecidableEq, Repr

/-- distribution_types::InstalledDist. -/
inductive InstalledDist
  | Registry (path : PathBuf)
  | Url (url : Url)
  | EggInfoFile (path : PathBuf)
  | EggInfoDirectory (path : PathBuf)
  | LegacyEditable (target_url : Url)
deriving DecidableEq, Repr

/-- distribution_types::ResolvedDist. -/
inductive ResolvedDist
  | Installed (d : InstalledDist)
  | Installable (d : Dist)
deriving DecidableEq, Repr

/-- Modelled from the spec: distribution_types is outside the verified
sources; per §4.1, is_editable "is true only for
LocalDirectorySource{editable: true} and InstalledLegacyEditable". -/
def ResolvedDist.is_editable : ResolvedDist → Bool
  | .Installable (.Source (.Directory _ editable)) => editable
  | .Installed (.LegacyEditable _) => true
  | _ => false

/-- pypi_types::DirInfo. -/
structure DirInfo where
  editable : Option Bool
deriving DecidableEq, Repr

/-- pypi_types::ArchiveInfo. The hashes mapping is a BTreeMap rendered as its
sorted association list. -/
structure ArchiveInfo where
  hash : Option String
  hashes : Option (List (String × String))
deriving DecidableEq, Repr

/-- pypi_types::VcsKind. -/
inductive VcsKind
  | Git
deriving DecidableEq, Repr

/-- pypi_types::VcsInfo. -/
structure VcsInfo where
  vcs : VcsKind
  commit_id : Option String
  requested_revision : Option String
deriving DecidableEq, Repr

/-- pypi_types::DirectUrl — the PEP 610 provenance record. -/
inductive DirectUrl
  | LocalDirectory (url : Url) (dir_info : DirInfo)
  | ArchiveUrl (url : Url) (archive_info : ArchiveInfo) (subdirectory : Option String)
  | VcsUrl (url : Url) (vcs_info : VcsInfo) (subdirectory : Option String)
deriving DecidableEq, Repr

/-- std::collections::BTreeMap insert on the sorted association-list model:
keeps keys strictly sorted, replaces the value when the key is present. -/
def btreeInsert (m : List (String × String)) (k v : String) : List (String × String) :=
  match m with
  | [] => [(k, v)]
  | (k0, v0) :: rest =>
    if k < k0 then (k, v) :: (k0, v0) :: rest
    else if k = k0 then (k, v) :: rest
    else (k0, v0) :: btreeInsert rest k v

/-- BTreeMap lookup on the association-list model. -/
def btreeGet (m : List (String × String)) (k : String) : Option String :=
  (m.find? (fun p => p.1 == k)).map (fun p => p.2)

/-- The hash-aggregation loop of AnnotatedDist::direct_url (resolution/mod.rs
lines 98–101): insert each (algorithm, digest) pair in sequence order. -/
def aggregateHashes (hashes : List HashDigest) : List (String × String) :=
  hashes.foldl (fun m h => btreeInsert m h.algorithm h.digest) []

/-- uv-resolver AnnotatedDist (resolution/mod.rs lines 30–40). The marker and
metadata_full fields are omitted: no verified function reads them. -/
structure AnnotatedDist where
  dist : ResolvedDist
  name : String
  version : String
  extra : Option String
  dev : Option String
  hashes : List HashDigest
  metadata : Option Unit
deriving DecidableEq, Repr

/-- AnnotatedDist::url (resolution/mod.rs lines 70–94). -/
def AnnotatedDist.url (d : AnnotatedDist) : Except Unit Url :=
  match d.dist with
  | .Installed di =>
    match di with
    | .Registry path => Url.from_file_path path
    | .Url u => Except.ok u
    | .EggInfoFile path => Url.from_file_path path
    | .EggInfoDirectory path => Url.from_file_path path
    | .LegacyEditable target_url => Except.ok target_url
  | .Installable dd =>
    match dd with
    | .Built b =>
      match b with
      | .Registry bestWheelIndex => Except.ok bestWheelIndex.url
      | .DirectUrl location => Except.ok location
      | .Path install_path => Url.from_file_path install_path
    | .Source s =>
      match s with
      | .Registry index => Except.ok index.url
      | .DirectUrl location _ => Except.ok location
      | .Git git _ => Except.ok git.repository
      | .Path install_path => Url.from_file_path install_path
      | .Directory install_path _ => Url.from_file_path install_path

/-- AnnotatedDist::direct_url (resolution/mod.rs lines 96–157). The ? on
self.url().ok() and on reference().as_str() short-circuit to None. -/
def AnnotatedDist.direct_url (d : AnnotatedDist) : Option DirectUrl :=
  match (d.url).toOption with
  | none => none
  | some url =>
    let hashes := aggregateHashes d.hashes
    let subdirectory : Option String :=
      match d.dist with
      | .Installable (.Source (.DirectUrl _ sub)) => sub
      | .Installable (.Source (.Git _ sub)) => sub
      | _ => none
    match d.dist with
    | .Installed (.EggInfoFile _)
    | .Installed (.EggInfoDirectory _)
    | .Installed (.LegacyEditable _)
    | .Installable (.Built (.Path _))
    | .Installable (.Source (.Path _))
    | .Installable (.Source (.Directory _ _)) =>
      some (.LocalDirectory url { editable := some d.dist.is_editable })
    | .Installed (.Registry _)
    | .Installed (.Url _)
    | .Installable (.Built (.Registry _))
    | .Installable (.Built (.DirectUrl _))
    | .Installable (.Source (.Registry _))
    | .Installable (.Source (.DirectUrl _ _)) =>
      some (.ArchiveUrl url { hash := none, hashes := some hashes } subdirectory)
    | .Installable (.Source (.Git git _)) =>
      match git.reference.as_str with
      | none => none
      | some revText =>
        some (.VcsUrl url
          { vcs := .Git
            commit_id := match git.precise with
              | some git_sha => some git_sha.hex
              | none => none
            requested_revision := some revText }
          subdirectory)

/-- Modelled from the spec: pypi_types::Metadata is outside the verified
sources; the report treats it as an opaque parsed-metadata object, modelled by
its core identity fields. -/
structure Metadata where
  name : String
  version : String
deriving DecidableEq, Repr

/-- pypi_types::Requirement: the fields the builder reads — normalized name
and requested extras. -/
structure Requirement where
  name : String
  extras : List String
deriving DecidableEq, Repr

/-- Package identity paired with the resolved distribution. In
distribution_types (outside the verified sources) these live inside the dist
variants, read back through dist.name() and dist.version_or_url(). -/
structure NamedDist where
  name : String
  version : String
  dist : ResolvedDist
deriving DecidableEq, Repr

/-- True exactly for the three registry origins: RegistryBuilt,
RegistrySource, InstalledRegistry. -/
def ResolvedDist.is_registry_origin : ResolvedDist → Bool
  | .Installed (.Registry _) => true
  | .Installable (.Built (.Registry _)) => true
  | .Installable (.Source (.Registry _)) => true
  | _ => false

/-- The stored-location text of a distribution, used as the payload of the
Url case of version_or_url. -/
def ResolvedDist.display_location : ResolvedDist → String
  | .Installed (.Registry path) => path.repr
  | .Installed (.Url u) => u
  | .Installed (.EggInfoFile path) => path.repr
  | .Installed (.EggInfoDirectory path) => path.repr
  | .Installed (.LegacyEditable target_url) => target_url
  | .Installable (.Built (.Registry bestWheelIndex)) => bestWheelIndex.url
  | .Installable (.Built (.DirectUrl location)) => location
  | .Installable (.Built (.Path path)) => path.repr
  | .Installable (.Source (.Registry index)) => index.url
  | .Installable (.Source (.DirectUrl location _)) => location
  | .Installable (.Source (.Git git _)) => git.repository
  | .Installable (.Source (.Path path)) => path.repr
  | .Installable (.Source (.Directory path _)) => path.repr

/-- distribution_types::VersionOrUrlRef. -/
inductive VersionOrUrlRef
  | version (v : String)
  | url (u : Url)
deriving DecidableEq, Repr

/-- Modelled from the spec: ResolvedDist::version_or_url lives in
distribution_types, outside the verified sources. Per §4.1 a distribution
carries a URL exactly when it was "not obtained by version lookup against an
index": the three registry origins carry a version, every other origin its
location URL. -/
def NamedDist.version_or_url (nd : NamedDist) : VersionOrUrlRef :=
  if nd.dist.is_registry_origin then .version nd.version
  else .url nd.dist.display_location

/-- report-types/src/report.rs lines 23–32. -/
structure InstallationReportItem where
  metadata : Metadata
  is_direct : Bool
  is_yanked : Bool
  download_info : Option DirectUrl
  requested : Bool
  requested_extras : List String
deriving DecidableEq, Repr

/-- Outcome of a computation that may panic (Rust .unwrap() on a failed
result aborts the build with no value). -/
inductive BuildResult (α : Type)
  | ok (value : α)
  | panicked
deriving DecidableEq, Repr

/-- InstallationReportItem::from_cached_dist (report-types/src/report.rs
lines 35–64). The metadata reader
(uv_metadata::read_flat_wheel_metadata_full, an external collaborator) is
passed explicitly; the source calls .unwrap() on it, so a failed read
panics. -/
def InstallationReportItem.from_cached_dist (readMeta : NamedDist → Option Metadata)
    (dist : NamedDist) (requirements : List Requirement) :
    BuildResult InstallationReportItem :=
  let requirement := requirements.find? (fun r => r.name == dist.name)
  match readMeta dist with
  | none => .panicked
  | some md =>
    .ok {
      is_direct := match dist.version_or_url with
        | .url _ => true
        | _ => false
      is_yanked := false
      download_info := match requirement with
        | some _ => none
        | none => none
      requested := match requirement with
        | some _ => true
        | none => false
      requested_extras := match requirement with
        | some req => req.extras
        | none => []
      metadata := md }

/-- report-types/src/report.rs lines 14–21 (the commented-out version,
pip_version and environment fields are omitted in the source as well). -/
structure PipReport where
  install : List InstallationReportItem
deriving DecidableEq, Repr

/-- The iterator body of PipReport::from_resolution: build each item in
input order, aborting the whole traversal on a panic. -/
def collectItems (readMeta : NamedDist → Option Metadata)
    (dists : List NamedDist) (requirements : List Requirement) :
    BuildResult (List InstallationReportItem) :=
  match dists with
  | [] => .ok []
  | d :: rest =>
    match InstallationReportItem.from_cached_dist readMeta d requirements with
    | .panicked => .panicked
    | .ok item =>
      match collectItems readMeta rest requirements with
      | .panicked => .panicked
      | .ok items => .ok (item :: items)

/-- PipReport::from_resolution (report-types/src/report.rs lines 68–80): map
from_cached_dist over the distributions and collect; a panic in any item
means no report is produced. -/
def PipReport.from_resolution (readMeta : NamedDist → Option Metadata)
    (dists : List NamedDist) (requirements : List Requirement) :
    BuildResult PipReport :=
  match collectItems readMeta dists requirements with
  | .panicked => .panicked
  | .ok install => .ok { install }

/-- The is_direct computation of InstallationReportItem::from_dist
(report_types/src/report.rs lines 24–31): true only for the two DirectUrl
variants, false for every other origin, installed origins included. -/
def from_dist_is_direct (resolved_dist : ResolvedDist) : Bool :=
  match resolved_dist with
  | .Installable dist =>
    match dist with
    | .Built (.DirectUrl _) => true
    | .Source (.DirectUrl _ _) => true
    | _ => false
  | _ => false

/-- The JSON document tree (serde_json::Value without numbers, which no
report field uses). -/
inductive Json
  | null
  | bool (b : Bool)
  | str (s : String)
  | arr (xs : List Json)
  | obj (fields : List (String × Json))

/-- Look up a field of a JSON object. -/
def Json.field : Json → String → Option Json
  | .obj fields, key => (fields.find? (fun p => p.1 == key)).map (fun p => p.2)
  | _, _ => none

/-- serde encoding of an optional string: null when absent. -/
def encOptStr : Option String → Json
  | none => .null
  | some s => .str s

/-- serde encoding of an optional bool: null when absent. -/
def encOptBool : Option Bool → Json
  | none => .null
  | some b => .bool b

def decOptStr : Json → Option (Option String)
  | .null => some none
  | .str s => some (some s)
  | _ => none

def decOptBool : Json → Option (Option Bool)
  | .null => some none
  | .bool b => some (some b)
  | _ => none

/-- Modelled from the spec: the serde encoding of pypi_types::Metadata is
outside the verified sources; §6 shows it as a nested object. -/
def Metadata.toJson (m : Metadata) : Json :=
  .obj [("name", .str m.name), ("version", .str m.version)]

def Metadata.fromJson : Json → Option Metadata
  | .obj [("name", .str n), ("version", .str v)] => some { name := n, version := v }
  | _ => none

/-- Modelled from the spec: the PEP 610-equivalent serde encoding of
pypi_types::DirectUrl (§6): dir_info / archive_info / vcs_info tag the
variant; absent optional fields serialize as null; the hashes mapping keeps
its BTreeMap key order. -/
def DirectUrl.toJson : DirectUrl → Json
  | .LocalDirectory url dir_info =>
    .obj [("url", .str url), ("dir_info", .obj [("editable", encOptBool dir_info.editable)])]
  | .ArchiveUrl url archive_info subdirectory =>
    .obj [("url", .str url),
          ("archive_info", .obj
            [("hash", encOptStr archive_info.hash),
             ("hashes", match archive_info.hashes with
               | none => .null
               | some hs => .obj (hs.map (fun p => (p.1, Json.str p.2))))]),
          ("subdirectory", encOptStr subdirectory)]
  | .VcsUrl url vcs_info subdirectory =>
    .obj [("url", .str url),
          ("vcs_info", .obj
            [("vcs", match vcs_info.vcs with | .Git => .str "git"),
             ("commit_id", encOptStr vcs_info.commit_id),
             ("requested_revision", encOptStr vcs_info.requested_revision)]),
          ("subdirectory", encOptStr subdirectory)]

def decHashPairs : List (String × Json) → Option (List (String × String))
  | [] => some []
  | (k, .str v) :: rest =>
    match decHashPairs rest with
    | some tail => some ((k, v) :: tail)
    | none => none
  | _ => none

def DirectUrl.fromJson : Json → Option DirectUrl
  | .obj [("url", .str url), ("dir_info", .obj [("editable", je)])] =>
    match decOptBool je with
    | some e => some (.LocalDirectory url { editable := e })
    | none => none
  | .obj [("url", .str url),
          ("archive_info", .obj [("hash", jh), ("hashes", jhs)]),
          ("subdirectory", js)] =>
    match decOptStr jh, js |> decOptStr with
    | some h, some sub =>
      match jhs with
      | .null => some (.ArchiveUrl url { hash := h, hashes := none } sub)
      | .obj pairs =>
        match decHashPairs pairs with
        | some hs => some (.ArchiveUrl url { hash := h, hashes := some hs } sub)
        | none => none
      | _ => none
    | _, _ => none
  | .obj [("url", .str url),
          ("vcs_info", .obj [("vcs", .str "git"), ("commit_id", jc), ("requested_revision", jr)]),
          ("subdirectory", js)] =>
    match decOptStr jc, decOptStr jr, decOptStr js with
    | some c, some r, some sub =>
      some (.VcsUrl url { vcs := .Git, commit_id := c, requested_revision := r } sub)
    | _, _, _ => none
  | _ => none

/-- serde encoding of InstallationReportItem: kebab-case field names per the
serde(rename_all) attribute (report-types/src/report.rs lines 23–24);
download_info serializes as null when absent and requested_extras as an
array of strings. -/
def InstallationReportItem.toJson (item : InstallationReportItem) : Json :=
  .obj [("metadata", item.metadata.toJson),
        ("is-direct", .bool item.is_direct),
        ("is-yanked", .bool item.is_yanked),
        ("download-info", match item.download_info with
          | none => .null
          | some du => du.toJson),
        ("requested", .bool item.requested),
        ("requested-extras", .arr (item.requested_extras.map Json.str))]

def decStrList : List Json → Option (List String)
  | [] => some []
  | .str s :: rest =>
    match decStrList rest with
    | some tail => some (s :: tail)
    | none => none
  | _ => none

/-- Decode a nullable download-info field. -/
def decOptDirectUrl : Json → Option (Option DirectUrl)
  | .null => some none
  | j => (DirectUrl.fromJson j).map Option.some

def InstallationReportItem.fromJson : Json → Option InstallationReportItem
  | .obj [("metadata", jm),
          ("is-direct", .bool d),
          ("is-yanked", .bool y),
          ("download-info", jd),
          ("requested", .bool rq),
          ("requested-extras", .arr jx)] =>
    match Metadata.fromJson jm with
    | none => none
    | some md =>
      match decOptDirectUrl jd with
      | none => none
      | some du =>
        match decStrList jx with
        | none => none
        | some extras =>
          some { metadata := md, is_direct := d, is_yanked := y,
                 download_info := du, requested := rq, requested_extras := extras }
  | _ => none

def decItems : List Json → Option (List InstallationReportItem)
  | [] => some []
  | j :: rest =>
    match InstallationReportItem.fromJson j with
    | none => none
    | some item =>
      match decItems rest with
      | some tail => some (item :: tail)
      | none => none

/-- PipReport::to_json (report-types/src/report.rs lines 82–84), modelled at
the level of the logical JSON document: serde_json::to_string emits exactly
the serde document of the report. -/
def PipReport.to_json (report : PipReport) : Json :=
  .obj [("install", .arr (report.install.map InstallationReportItem.toJson))]

/-- PipReport::to_json_pretty (report-types/src/report.rs lines 86–88):
serde_json::to_string_pretty serializes the same serde document, differing
from to_string only in whitespace, which the document level abstracts. -/
def PipReport.to_json_pretty (report : PipReport) : Json :=
  .obj [("install", .arr (report.install.map InstallationReportItem.toJson))]

/-- Parsing a report document (serde Deserialize on PipReport). -/
def PipReport.parse : Json → Option PipReport
  | .obj [("install", .arr items)] =>
    match decItems items with
    | some install => some { install }
    | none => none
  | _ => none

/-- Discriminator: is this provenance record an ArchiveUrl? -/
def DirectUrl.isArchive : DirectUrl → Bool
  | .ArchiveUrl _ _ _ => true
  | _ => false

/-- Discriminator: did the build produce a value (as opposed to panicking)? -/
def BuildResult.is_ok {α : Type} : BuildResult α → Bool
  | .ok _ => true
  | .panicked => false

/-! ## Lemmas about the BTreeMap model -/

theorem btreeGet_cons_of_eq {v0 : String} {m : List (String × String)} {k0 k' : String}
    (h : k0 = k') : btreeGet ((k0, v0) :: m) k' = some v0 := by
  simp [btreeGet, List.find?_cons_of_pos, h]

theorem btreeGet_cons_of_ne {v0 : String} {m : List (String × String)} {k0 k' : String}
    (h : ¬ k0 = k') : btreeGet ((k0, v0) :: m) k' = btreeGet m k' := by
  simp only [btreeGet]
  rw [List.find?_cons_of_neg]
  simp [h]

theorem btreeGet_insert (m : List (String × String)) (k v k' : String) :
    btreeGet (btreeInsert m k v) k' = if k' = k then some v else btreeGet m k' := by
  induction m with
  | nil =>
    by_cases h : k' = k
    · rw [if_pos h]
      simp only [btreeInsert]
      exact btreeGet_cons_of_eq h.symm
    · rw [if_neg h]
      simp only [btreeInsert]
      rw [btreeGet_cons_of_ne (fun hc => h hc.symm)]
  | cons p rest ih =>
    obtain ⟨k0, v0⟩ := p
    simp only [btreeInsert]
    by_cases h1 : k < k0
    · rw [if_pos h1]
      by_cases h : k' = k
      · rw [if_pos h, btreeGet_cons_of_eq h.symm]
      · rw [if_neg h, btreeGet_cons_of_ne (fun hc => h hc.symm)]
    · rw [if_neg h1]
      by_cases h2 : k = k0
      · rw [if_pos h2]
        by_cases h : k' = k
        · rw [if_pos h, btreeGet_cons_of_eq h.symm]
        · rw [if_neg h, btreeGet_cons_of_ne (fun hc => h hc.symm),
            btreeGet_cons_of_ne (fun hc => h (h2.trans hc).symm)]
      · rw [if_neg h2]
        by_cases h3 : k0 = k'
        · have hk : ¬ k' = k := fun hc => h2 ((h3.trans hc).symm)
          rw [if_neg hk, btreeGet_cons_of_eq h3, btreeGet_cons_of_eq h3]
        · rw [btreeGet_cons_of_ne h3, btreeGet_cons_of_ne h3, ih]

theorem btreeGet_foldl_insert (hs : List HashDigest) (m : List (String × String))
    (k : String) :
    btreeGet (hs.foldl (fun acc h => btreeInsert acc h.algorithm h.digest) m) k =
      match hs.reverse.find? (fun h => h.algorithm == k) with
      | some h => some h.digest
      | none => btreeGet m k := by
  induction hs generalizing m with
  | nil => simp
  | cons h hs ih =>
    simp only [List.foldl_cons, List.reverse_cons, List.find?_append]
    rw [ih]
    cases hfind : hs.reverse.find? (fun h => h.algorithm == k) with
    | some h' => simp
    | none =>
      rw [btreeGet_insert]
      by_cases hk : k = h.algorithm
      · have hone : ([h].find? (fun h => h.algorithm == k)) = some h :=
          List.find?_cons_of_pos _ (by simp [hk])
        simp [hone, hk]
      · have hone : ([h].find? (fun h => h.algorithm == k)) = none := by
          rw [List.find?_cons_of_neg _ (by simp only [beq_iff_eq]; exact Ne.symm hk),
            List.find?_nil]
        simp [hone, hk]

theorem find?_first {α : Type} (p : α → Bool) (l₁ l₂ : List α) (r : α)
    (h₁ : ∀ q ∈ l₁, p q = false) (h₂ : p r = true) :
    (l₁ ++ r :: l₂).find? p = some r := by
  induction l₁ with
  | nil => simpa using List.find?_cons_of_pos _ h₂
  | cons a as ih =>
    rw [List.cons_append, List.find?_cons_of_neg _ (by simp [h₁ a (List.mem_cons_self a as)])]
    exact ih (fun q hq => h₁ q (List.mem_cons_of_mem a hq))

/-! ## Lemmas about the report builder -/

theorem from_cached_dist_ok (readMeta : NamedDist → Option Metadata) (nd : NamedDist)
    (reqs : List Requirement) (md : Metadata) (hm : readMeta nd = some md) :
    InstallationReportItem.from_cached_dist readMeta nd reqs = .ok
      { metadata := md,
        is_direct := match nd.version_or_url with | .url _ => true | _ => false,
        is_yanked := false,
        download_info := match reqs.find? (fun r => r.name == nd.name) with
          | some _ => none
          | none => none,
        requested := match reqs.find? (fun r => r.name == nd.name) with
          | some _ => true
          | none => false,
        requested_extras := match reqs.find? (fun r => r.name == nd.name) with
          | some req => req.extras
          | none => [] } := by
  simp [InstallationReportItem.from_cached_dist, hm]

theorem from_cached_dist_ok_inv (readMeta : NamedDist → Option Metadata) (nd : NamedDist)
    (reqs : List Requirement) (item : InstallationReportItem)
    (h : InstallationReportItem.from_cached_dist readMeta nd reqs = .ok item) :
    ∃ md, readMeta nd = some md ∧ item =
      { metadata := md,
        is_direct := match nd.version_or_url with | .url _ => true | _ => false,
        is_yanked := false,
        download_info := match reqs.find? (fun r => r.name == nd.name) with
          | some _ => none
          | none => none,
        requested := match reqs.find? (fun r => r.name == nd.name) with
          | some _ => true
          | none => false,
        requested_extras := match reqs.find? (fun r => r.name == nd.name) with
          | some req => req.extras
          | none => [] } := by
  cases hm : readMeta nd with
  | none =>
    exfalso
    simp [InstallationReportItem.from_cached_dist, hm] at h
  | some md =>
    refine ⟨md, rfl, ?_⟩
    rw [from_cached_dist_ok readMeta nd reqs md hm] at h
    injection h with h'
    exact h'.symm

/-- Under the spec-modelled version_or_url, the from_cached_dist classifier
marks a report item direct exactly when its origin is not a registry one. -/
theorem from_cached_dist_is_direct_spec (readMeta : NamedDist → Option Metadata)
    (nd : NamedDist) (reqs : List Requirement) (item : InstallationReportItem)
    (h : InstallationReportItem.from_cached_dist readMeta nd reqs = .ok item) :
    item.is_direct = !nd.dist.is_registry_origin := by
  obtain ⟨md, hm, hitem⟩ := from_cached_dist_ok_inv readMeta nd reqs item h
  subst hitem
  by_cases hr : nd.dist.is_registry_origin = true
  · simp [NamedDist.version_or_url, hr]
  · simp only [Bool.not_eq_true] at hr
    simp [NamedDist.version_or_url, hr]

/-! ## Claim theorems -/

/-- C6: Hash aggregation over the ordered sequence of (algorithm, digest)
pairs is last-write-wins per algorithm: the resulting mapping assigns to each
algorithm the digest of the last pair in sequence order carrying that
algorithm (and nothing to an algorithm with no pair); in particular
aggregating [(sha256, A), (sha256, B)] yields the mapping {sha256: B}. -/
theorem aggregate_hashes_last_write_wins :
    (∀ (hs : List HashDigest) (k : String),
      btreeGet (aggregateHashes hs) k =
        (hs.reverse.find? (fun h => h.algorithm == k)).map (fun h => h.digest)) ∧
    aggregateHashes [⟨"sha256", "A"⟩, ⟨"sha256", "B"⟩] = [("sha256", "B")] := by
  constructor
  · intro hs k
    rw [aggregateHashes, btreeGet_foldl_insert]
    cases hs.reverse.find? (fun h => h.algorithm == k) <;> simp [btreeGet]
  · simp [aggregateHashes, btreeInsert, String.lt_irrefl]

/-- C1: the claim states is_direct is true for every non-registry origin
(direct-URL, local-path, local-directory, VCS and non-registry installed
origins). The from_dist classifier in the source contradicts this: it
computes is_direct = false for VCS, local-path, local-directory and every
installed origin, and true only for the two direct-URL variants. -/
theorem from_dist_is_direct_false_on_direct_origins :
    from_dist_is_direct (.Installable (.Source
      (.Git ⟨"https://github.com/org/repo", some ⟨"a1b2c3"⟩, .named "main"⟩ none))) = false ∧
    from_dist_is_direct (.Installable (.Built
      (.Path ⟨"/home/user/pkg.whl", some "file:///home/user/pkg.whl"⟩))) = false ∧
    from_dist_is_direct (.Installable (.Source
      (.Path ⟨"/home/user/pkg.tar.gz", some "file:///home/user/pkg.tar.gz"⟩))) = false ∧
    from_dist_is_direct (.Installable (.Source
      (.Directory ⟨"/home/user/proj", some "file:///home/user/proj"⟩ true))) = false ∧
    from_dist_is_direct (.Installed (.Url "https://example.com/pkg.whl")) = false ∧
    from_dist_is_direct (.Installed (.EggInfoFile ⟨"/site/pkg.egg-info", some "file:///site/pkg.egg-info"⟩)) = false ∧
    from_dist_is_direct (.Installed (.LegacyEditable "file:///home/user/proj")) = false ∧
    from_dist_is_direct (.Installable (.Built (.DirectUrl "https://example.com/pkg.whl"))) = true ∧
    from_dist_is_direct (.Installable (.Source (.DirectUrl "https://example.com/src.tar.gz" none))) = true ∧
    from_dist_is_direct (.Installable (.Built (.Registry ⟨"https://pypi.org/simple"⟩))) = false ∧
    from_dist_is_direct (.Installable (.Source (.Registry ⟨"https://pypi.org/simple"⟩))) = false ∧
    from_dist_is_direct (.Installed (.Registry ⟨"/site/pkg", some "file:///site/pkg"⟩)) = false := by
  decide

/-- C4: the claim states a missing metadata makes the build return
MissingMetadataError with no panic. The source instead calls .unwrap() on
the metadata read, so the build panics: no report and no structured error
value is produced. -/
theorem missing_metadata_panics_build :
    PipReport.from_resolution (fun _ => none)
      [⟨"flask", "3.0", .Installable (.Built (.Registry ⟨"https://pypi.org/simple"⟩))⟩]
      [] = .panicked ∧
    InstallationReportItem.from_cached_dist (fun _ => none)
      ⟨"flask", "3.0", .Installable (.Built (.Registry ⟨"https://pypi.org/simple"⟩))⟩
      [] = .panicked ∧
    PipReport.from_resolution (fun nd => if nd.name == "werkzeug" then none else some ⟨nd.name, nd.version⟩)
      [⟨"flask", "3.0", .Installable (.Built (.Registry ⟨"https://pypi.org/simple"⟩))⟩,
       ⟨"werkzeug", "3.0", .Installable (.Built (.Registry ⟨"https://pypi.org/simple"⟩))⟩]
      [] = .panicked := by
  decide

/-- True exactly for the two index-fetched registry origins, RegistryBuilt
and RegistrySource; false for InstalledRegistry and every other origin. -/
def ResolvedDist.is_fetched_registry : ResolvedDist → Bool
  | .Installable (.Built (.Registry _)) => true
  | .Installable (.Source (.Registry _)) => true
  | _ => false

/-- C3: is_yanked is true only when the origin is RegistryBuilt or
RegistrySource and the index marks that version yanked, and is false for
every other origin, InstalledRegistry included. The builder hardcodes
is_yanked to false, which satisfies both parts. -/
theorem report_item_is_yanked_registry_only (readMeta : NamedDist → Option Metadata)
    (yankedFlag : NamedDist → Bool) (nd : NamedDist) (reqs : List Requirement)
    (item : InstallationReportItem)
    (h : InstallationReportItem.from_cached_dist readMeta nd reqs = .ok item) :
    (item.is_yanked = true →
      nd.dist.is_fetched_registry = true ∧ yankedFlag nd = true) ∧
    (nd.dist.is_fetched_registry = false → item.is_yanked = false) := by
  obtain ⟨md, hm, hitem⟩ := from_cached_dist_ok_inv readMeta nd reqs item h
  subst hitem
  exact ⟨fun hfalse => absurd hfalse (by simp), fun _ => rfl⟩

/-- C8: a report item is requested exactly when some requirement carries the
distribution's normalized name; the first matching requirement in list order
supplies requested_extras, and requested_extras is empty when no requirement
matches. -/
theorem report_item_requested_matches_first_requirement
    (readMeta : NamedDist → Option Metadata) (nd : NamedDist)
    (reqs : List Requirement) (item : InstallationReportItem)
    (h : InstallationReportItem.from_cached_dist readMeta nd reqs = .ok item) :
    (item.requested = true ↔ ∃ r ∈ reqs, r.name = nd.name) ∧
    ((∀ r ∈ reqs, r.name ≠ nd.name) →
      item.requested = false ∧ item.requested_extras = []) ∧
    (∀ (l₁ l₂ : List Requirement) (r : Requirement),
      reqs = l₁ ++ r :: l₂ → (∀ q ∈ l₁, q.name ≠ nd.name) → r.name = nd.name →
      item.requested = true ∧ item.requested_extras = r.extras) := by
  obtain ⟨md, hm, hitem⟩ := from_cached_dist_ok_inv readMeta nd reqs item h
  subst hitem
  refine ⟨?_, ?_, ?_⟩
  · cases hfind : reqs.find? (fun r => r.name == nd.name) with
    | none =>
      have hnone := List.find?_eq_none.mp hfind
      simp only [hfind]
      constructor
      · intro hfalse
        exact absurd hfalse (by simp)
      · rintro ⟨r, hr, hname⟩
        exact absurd (by simpa [beq_iff_eq] using hname) (hnone r hr)
    | some r0 =>
      simp only [hfind]
      constructor
      · intro _
        exact ⟨r0, List.mem_of_find?_eq_some hfind,
          by simpa [beq_iff_eq] using List.find?_some hfind⟩
      · intro _
        trivial
  · intro hnomatch
    have hfind : reqs.find? (fun r => r.name == nd.name) = none :=
      List.find?_eq_none.mpr (fun r hr => by
        simp only [beq_iff_eq]
        exact hnomatch r hr)
    simp [hfind]
  · intro l₁ l₂ r hsplit hskip hname
    have hfind : reqs.find? (fun r => r.name == nd.name) = some r := by
      rw [hsplit]
      exact find?_first _ l₁ l₂ r
        (fun q hq => by simpa [beq_iff_eq] using hskip q hq)
        (by simpa [beq_iff_eq] using hname)
    simp [hfind]

/-- C3 witness at a concrete VCS-origin distribution. -/
def c3Dist : NamedDist :=
  ⟨"pkg", "1.0", .Installable (.Source (.Git ⟨"https://github.com/org/repo", none, .named "main"⟩ none))⟩

def c3Item : InstallationReportItem :=
  { metadata := ⟨"pkg", "1.0"⟩, is_direct := true, is_yanked := false,
    download_info := none, requested := false, requested_extras := [] }

/-- An InstalledRegistry distribution, a non-RegistryBuilt/RegistrySource
origin for which the claim demands is_yanked = false. -/
def c3InstalledDist : NamedDist :=
  ⟨"pkg", "1.0", .Installed (.Registry ⟨"/site/pkg", some "file:///site/pkg"⟩)⟩

def c3InstalledItem : InstallationReportItem :=
  { metadata := ⟨"pkg", "1.0"⟩, is_direct := false, is_yanked := false,
    download_info := none, requested := false, requested_extras := [] }

theorem report_item_is_yanked_registry_only_witness :
    ((c3Item.is_yanked = true →
      c3Dist.dist.is_fetched_registry = true ∧ (fun _ : NamedDist => false) c3Dist = true) ∧
     (c3Dist.dist.is_fetched_registry = false → c3Item.is_yanked = false)) ∧
    (c3InstalledDist.dist.is_fetched_registry = false → c3InstalledItem.is_yanked = false) :=
  ⟨report_item_is_yanked_registry_only (fun _ => some ⟨"pkg", "1.0"⟩) (fun _ => false)
     c3Dist [] c3Item (by decide),
   (report_item_is_yanked_registry_only (fun _ => some ⟨"pkg", "1.0"⟩) (fun _ => false)
     c3InstalledDist [] c3InstalledItem (by decide)).2⟩

/-- C8 witness: flask is requested with extras [async]. -/
def flaskReq : Requirement := ⟨"flask", ["async"]⟩

def c8Dist : NamedDist :=
  ⟨"flask", "3.0", .Installable (.Built (.Registry ⟨"https://pypi.org/simple"⟩))⟩

def c8Item : InstallationReportItem :=
  { metadata := ⟨"flask", "3.0"⟩, is_direct := false, is_yanked := false,
    download_info := none, requested := true, requested_extras := ["async"] }

theorem report_item_requested_matches_first_requirement_witness :
    c8Item.requested = true ∧ c8Item.requested_extras = flaskReq.extras :=
  (report_item_requested_matches_first_requirement (fun _ => some ⟨"flask", "3.0"⟩)
    c8Dist [flaskReq] c8Item (by decide)).2.2 [] [] flaskReq rfl (by simp) rfl

/-- C2 counterexample input: a built local-path wheel. -/
def localWheelDist : AnnotatedDist :=
  { dist := .Installable (.Built
      (.Path ⟨"/home/user/pkg-1.0-py3-none-any.whl", some "file:///home/user/pkg-1.0-py3-none-any.whl"⟩)),
    name := "pkg", version := "1.0", extra := none, dev := none,
    hashes := [⟨"sha256", "abc"⟩], metadata := none }

/-- C2 counterexample: at a LocalPathBuilt origin the synthesizer returns a
LocalDirectory record, not the ArchiveUrl record the claim demands. -/
theorem direct_url_local_path_yields_local_directory :
    AnnotatedDist.direct_url localWheelDist =
      some (.LocalDirectory "file:///home/user/pkg-1.0-py3-none-any.whl"
        { editable := some false }) ∧
    (AnnotatedDist.direct_url localWheelDist).map DirectUrl.isArchive = some false := by
  decide

/-- C2 amended: direct-URL (built or source) and registry origins synthesize
ArchiveUrl{url: canonical url, hash: none, hashes: aggregated mapping,
subdirectory: the origin's subdirectory for DirectUrlSource, none otherwise};
LocalPathBuilt and LocalPathSource origins instead synthesize a
LocalDirectory record over the file:// form of the path. -/
theorem direct_url_archive_classification (d : AnnotatedDist) :
    (∀ location : Url, d.dist = .Installable (.Built (.DirectUrl location)) →
      d.direct_url = some (.ArchiveUrl location
        { hash := none, hashes := some (aggregateHashes d.hashes) } none)) ∧
    (∀ (location : Url) (sub : Option String),
      d.dist = .Installable (.Source (.DirectUrl location sub)) →
      d.direct_url = some (.ArchiveUrl location
        { hash := none, hashes := some (aggregateHashes d.hashes) } sub)) ∧
    (∀ index : IndexUrl, d.dist = .Installable (.Built (.Registry index)) →
      d.direct_url = some (.ArchiveUrl index.url
        { hash := none, hashes := some (aggregateHashes d.hashes) } none)) ∧
    (∀ index : IndexUrl, d.dist = .Installable (.Source (.Registry index)) →
      d.direct_url = some (.ArchiveUrl index.url
        { hash := none, hashes := some (aggregateHashes d.hashes) } none)) ∧
    (∀ (p : PathBuf) (u : Url), d.dist = .Installable (.Built (.Path p)) →
      p.fileUrl = some u →
      d.direct_url = some (.LocalDirectory u { editable := some false })) ∧
    (∀ (p : PathBuf) (u : Url), d.dist = .Installable (.Source (.Path p)) →
      p.fileUrl = some u →
      d.direct_url = some (.LocalDirectory u { editable := some false })) := by
  refine ⟨?_, ?_, ?_, ?_, ?_, ?_⟩
  · intro location hdist
    simp [AnnotatedDist.direct_url, AnnotatedDist.url, Except.toOption, hdist]
  · intro location sub hdist
    simp [AnnotatedDist.direct_url, AnnotatedDist.url, Except.toOption, hdist]
  · intro index hdist
    simp [AnnotatedDist.direct_url, AnnotatedDist.url, Except.toOption, hdist]
  · intro index hdist
    simp [AnnotatedDist.direct_url, AnnotatedDist.url, Except.toOption, hdist]
  · intro p u hdist hp
    simp [AnnotatedDist.direct_url, AnnotatedDist.url, Except.toOption, hdist, Url.from_file_path, hp,
      ResolvedDist.is_editable]
  · intro p u hdist hp
    simp [AnnotatedDist.direct_url, AnnotatedDist.url, Except.toOption, hdist, Url.from_file_path, hp,
      ResolvedDist.is_editable]

/-- A source archive fetched from an explicit URL, with a duplicated hash
algorithm. -/
def srcArchiveDist : AnnotatedDist :=
  { dist := .Installable (.Source (.DirectUrl "https://example.com/src.tar.gz" (some "sub"))),
    name := "pkg", version := "1.0", extra := none, dev := none,
    hashes := [⟨"sha256", "A"⟩, ⟨"sha256", "B"⟩], metadata := none }

theorem direct_url_archive_classification_witness :
    AnnotatedDist.direct_url srcArchiveDist =
      some (.ArchiveUrl "https://example.com/src.tar.gz"
        { hash := none, hashes := some [("sha256", "B")] } (some "sub")) ∧
    AnnotatedDist.direct_url localWheelDist =
      some (.LocalDirectory "file:///home/user/pkg-1.0-py3-none-any.whl"
        { editable := some false }) := by
  constructor
  · have h := (direct_url_archive_classification srcArchiveDist).2.1
      "https://example.com/src.tar.gz" (some "sub") rfl
    rw [h]
    simp [srcArchiveDist, aggregateHashes, btreeInsert, String.lt_irrefl]
  · exact (direct_url_archive_classification localWheelDist).2.2.2.2.1
      ⟨"/home/user/pkg-1.0-py3-none-any.whl", some "file:///home/user/pkg-1.0-py3-none-any.whl"⟩
      "file:///home/user/pkg-1.0-py3-none-any.whl" rfl rfl

/-- C5: VCS synthesis yields VcsUrl{url: repository URL, commit_id: hex of
the resolved commit when present, requested_revision: the reference's text,
subdirectory}; a reference with no textual rendering makes the synthesizer
return no download_info at all, and the report build still succeeds whenever
metadata reads succeed — no error is ever raised for it. -/
theorem direct_url_vcs_synthesis (d : AnnotatedDist) (git : GitUrl) (sub : Option String)
    (h : d.dist = .Installable (.Source (.Git git sub))) :
    (∀ text : String, git.reference.as_str = some text →
      d.direct_url = some (.VcsUrl git.repository
        { vcs := .Git, commit_id := git.precise.map GitSha.hex,
          requested_revision := some text } sub)) ∧
    (git.reference.as_str = none → d.direct_url = none) ∧
    (∀ item : InstallationReportItem, item.download_info = none →
      (item.toJson).field "download-info" = some .null) ∧
    (∀ (readMeta : NamedDist → Option Metadata) (nd : NamedDist)
        (reqs : List Requirement) (md : Metadata), readMeta nd = some md →
      (InstallationReportItem.from_cached_dist readMeta nd reqs).is_ok = true) := by
  refine ⟨?_, ?_, ?_, ?_⟩
  · intro text htext
    cases hprec : git.precise <;>
      simp [AnnotatedDist.direct_url, AnnotatedDist.url, Except.toOption, h, htext, hprec]
  · intro hnone
    simp [AnnotatedDist.direct_url, AnnotatedDist.url, Except.toOption, h, hnone]
  · intro item hdl
    simp only [InstallationReportItem.toJson, hdl]
    rfl
  · intro readMeta nd reqs md hm
    simp [InstallationReportItem.from_cached_dist, hm, BuildResult.is_ok]

/-- A VCS checkout with a textual reference and a resolved commit. -/
def gitNamedDist : AnnotatedDist :=
  { dist := .Installable (.Source
      (.Git ⟨"https://github.com/org/repo", some ⟨"a1b2c3"⟩, .named "main"⟩ (some "sub"))),
    name := "pkg", version := "1.0", extra := none, dev := none,
    hashes := [], metadata := none }

/-- A VCS checkout whose reference has no textual rendering. -/
def gitDefaultDist : AnnotatedDist :=
  { dist := .Installable (.Source
      (.Git ⟨"https://github.com/org/repo", none, .defaultBranch⟩ none)),
    name := "pkg", version := "1.0", extra := none, dev := none,
    hashes := [], metadata := none }

theorem direct_url_vcs_synthesis_witness :
    AnnotatedDist.direct_url gitNamedDist =
      some (.VcsUrl "https://github.com/org/repo"
        { vcs := .Git, commit_id := some "a1b2c3", requested_revision := some "main" }
        (some "sub")) ∧
    AnnotatedDist.direct_url gitDefaultDist = none :=
  ⟨(direct_url_vcs_synthesis gitNamedDist
      ⟨"https://github.com/org/repo", some ⟨"a1b2c3"⟩, .named "main"⟩ (some "sub") rfl).1
      "main" rfl,
   (direct_url_vcs_synthesis gitDefaultDist
      ⟨"https://github.com/org/repo", none, .defaultBranch⟩ none rfl).2.1 rfl⟩

/-- C7 counterexample input: a local source archive whose relative path has
no absolute file:// form. -/
def unrootedPathDist : AnnotatedDist :=
  { dist := .Installable (.Source (.Path ⟨"relative/pkg.tar.gz", none⟩)),
    name := "pkg", version := "1.0", extra := none, dev := none,
    hashes := [], metadata := none }

/-- C7 counterexample: when the install path cannot be converted to a
file:// URL the synthesizer silently returns no download_info (it has no
error channel at all), and the report build over that origin still
succeeds — nothing fails with a PathConversionError. -/
theorem direct_url_unconvertible_path_returns_none :
    Url.from_file_path ⟨"relative/pkg.tar.gz", none⟩ = Except.error () ∧
    AnnotatedDist.direct_url unrootedPathDist = none ∧
    (PipReport.from_resolution (fun _ => some ⟨"pkg", "1.0"⟩)
      [⟨"pkg", "1.0", unrootedPathDist.dist⟩] []).is_ok = true :=
  ⟨rfl, rfl, rfl⟩

/-- C7 amended: for a local-path or local-directory origin whose install
path cannot be converted to an absolute file:// URL, the synthesizer
degrades to an absent download_info (None); no error is produced and the
build is not aborted. -/
theorem direct_url_degrades_on_path_conversion_failure (d : AnnotatedDist) (p : PathBuf)
    (h1 : d.dist = .Installable (.Built (.Path p)) ∨
          d.dist = .Installable (.Source (.Path p)) ∨
          (∃ editable : Bool, d.dist = .Installable (.Source (.Directory p editable))))
    (h2 : p.fileUrl = none) :
    d.direct_url = none := by
  rcases h1 with h | h | ⟨e, h⟩ <;>
    simp [AnnotatedDist.direct_url, AnnotatedDist.url, Except.toOption, h, Url.from_file_path, h2]

theorem direct_url_degrades_on_path_conversion_failure_witness :
    AnnotatedDist.direct_url unrootedPathDist = none :=
  direct_url_degrades_on_path_conversion_failure unrootedPathDist
    ⟨"relative/pkg.tar.gz", none⟩ (Or.inr (Or.inl rfl)) rfl

/-- C10: whenever synthesis produces an ArchiveUrl record, archive_info.hash
is absent and archive_info.hashes is present and holds the aggregated
mapping — the empty mapping, still present, when the distribution has no
hashes. -/
theorem archive_info_hash_fields_invariant (d : AnnotatedDist) (u : Url)
    (ai : ArchiveInfo) (sub : Option String)
    (h : d.direct_url = some (.ArchiveUrl u ai sub)) :
    ai.hash = none ∧ ai.hashes = some (aggregateHashes d.hashes) ∧
    (d.hashes = [] → ai.hashes = some []) := by
  rcases d with ⟨dist, name, version, extra, dev, hashes, metadata⟩
  obtain ⟨aihash, aihashes⟩ := ai
  rcases dist with di | dd
  · rcases di with p | u0 | p | p | t
    · cases hp : p.fileUrl with
      | none =>
        simp [AnnotatedDist.direct_url, AnnotatedDist.url, Except.toOption, Url.from_file_path, hp] at h
      | some u1 =>
        simp [AnnotatedDist.direct_url, AnnotatedDist.url, Except.toOption, Url.from_file_path, hp] at h
        obtain ⟨-, ⟨ha, hb⟩, -⟩ := h
        refine ⟨ha.symm, hb.symm, fun he => ?_⟩
        subst he
        exact hb.symm
    · simp [AnnotatedDist.direct_url, AnnotatedDist.url, Except.toOption, Except.toOption] at h
      obtain ⟨-, ⟨ha, hb⟩, -⟩ := h
      refine ⟨ha.symm, hb.symm, fun he => ?_⟩
      subst he
      exact hb.symm
    · cases hp : p.fileUrl <;>
        simp [AnnotatedDist.direct_url, AnnotatedDist.url, Except.toOption, Url.from_file_path, hp] at h
    · cases hp : p.fileUrl <;>
        simp [AnnotatedDist.direct_url, AnnotatedDist.url, Except.toOption, Url.from_file_path, hp] at h
    · simp [AnnotatedDist.direct_url, AnnotatedDist.url, Except.toOption, Except.toOption] at h
  · rcases dd with b | s
    · rcases b with bestWheelIndex | location | p
      · simp [AnnotatedDist.direct_url, AnnotatedDist.url, Except.toOption, Except.toOption] at h
        obtain ⟨-, ⟨ha, hb⟩, -⟩ := h
        refine ⟨ha.symm, hb.symm, fun he => ?_⟩
        subst he
        exact hb.symm
      · simp [AnnotatedDist.direct_url, AnnotatedDist.url, Except.toOption, Except.toOption] at h
        obtain ⟨-, ⟨ha, hb⟩, -⟩ := h
        refine ⟨ha.symm, hb.symm, fun he => ?_⟩
        subst he
        exact hb.symm
      · cases hp : p.fileUrl <;>
          simp [AnnotatedDist.direct_url, AnnotatedDist.url, Except.toOption, Url.from_file_path, hp] at h
    · rcases s with index | ⟨location, sub0⟩ | ⟨g, sub0⟩ | p | ⟨p, e⟩
      · simp [AnnotatedDist.direct_url, AnnotatedDist.url, Except.toOption, Except.toOption] at h
        obtain ⟨-, ⟨ha, hb⟩, -⟩ := h
        refine ⟨ha.symm, hb.symm, fun he => ?_⟩
        subst he
        exact hb.symm
      · simp [AnnotatedDist.direct_url, AnnotatedDist.url, Except.toOption, Except.toOption] at h
        obtain ⟨-, ⟨ha, hb⟩, -⟩ := h
        refine ⟨ha.symm, hb.symm, fun he => ?_⟩
        subst he
        exact hb.symm
      · obtain ⟨repo, prec, ref⟩ := g
        rcases ref with text | _ <;>
          simp [AnnotatedDist.direct_url, AnnotatedDist.url, Except.toOption, GitReference.as_str] at h
      · cases hp : p.fileUrl <;>
          simp [AnnotatedDist.direct_url, AnnotatedDist.url, Except.toOption, Url.from_file_path, hp] at h
      · cases hp : p.fileUrl <;>
          simp [AnnotatedDist.direct_url, AnnotatedDist.url, Except.toOption, Url.from_file_path, hp] at h

/-- A registry distribution with one hash. -/
def registryHashDist : AnnotatedDist :=
  { dist := .Installable (.Source (.Registry ⟨"https://pypi.org/simple"⟩)),
    name := "pkg", version := "1.0", extra := none, dev := none,
    hashes := [⟨"sha256", "aa"⟩], metadata := none }

/-- A registry distribution with no hashes. -/
def registryNoHashDist : AnnotatedDist :=
  { dist := .Installable (.Source (.Registry ⟨"https://pypi.org/simple"⟩)),
    name := "pkg", version := "1.0", extra := none, dev := none,
    hashes := [], metadata := none }

theorem decOptStr_encOptStr (s : Option String) : decOptStr (encOptStr s) = some s := by
  cases s <;> rfl

theorem decOptBool_encOptBool (b : Option Bool) : decOptBool (encOptBool b) = some b := by
  cases b <;> rfl

theorem decHashPairs_map (hs : List (String × String)) :
    decHashPairs (hs.map (fun p => (p.1, Json.str p.2))) = some hs := by
  induction hs with
  | nil => rfl
  | cons p rest ih =>
    obtain ⟨k, v⟩ := p
    simp [decHashPairs, ih]

theorem metadata_round_trip (m : Metadata) : Metadata.fromJson m.toJson = some m := by
  cases m
  rfl

theorem directUrl_round_trip (du : DirectUrl) : DirectUrl.fromJson du.toJson = some du := by
  cases du with
  | LocalDirectory url di =>
    obtain ⟨e⟩ := di
    cases e <;> rfl
  | ArchiveUrl url ai sub =>
    obtain ⟨h, hs⟩ := ai
    rcases hs with _ | hs'
    · cases h <;> cases sub <;> rfl
    · cases h <;> cases sub <;>
        simp [DirectUrl.toJson, DirectUrl.fromJson, encOptStr, decOptStr, decHashPairs_map]
  | VcsUrl url vi sub =>
    obtain ⟨vk, c, r⟩ := vi
    cases vk
    cases c <;> cases r <;> cases sub <;> rfl

theorem decOptDirectUrl_not_null (j : Json) (hne : j ≠ .null) :
    decOptDirectUrl j = (DirectUrl.fromJson j).map Option.some := by
  cases j <;> first | exact absurd rfl hne | rfl

theorem decOptDirectUrl_toJson (du : DirectUrl) :
    decOptDirectUrl du.toJson = some (some du) := by
  rw [decOptDirectUrl_not_null _ (by cases du <;> simp [DirectUrl.toJson]),
    directUrl_round_trip]
  rfl

theorem decStrList_map (xs : List String) : decStrList (xs.map Json.str) = some xs := by
  induction xs with
  | nil => rfl
  | cons a as ih => simp [decStrList, ih]

theorem item_round_trip (item : InstallationReportItem) :
    InstallationReportItem.fromJson item.toJson = some item := by
  obtain ⟨md, dflag, yflag, dl, rq, ex⟩ := item
  cases dl with
  | none =>
    simp [InstallationReportItem.toJson, InstallationReportItem.fromJson,
      metadata_round_trip, decOptDirectUrl, decStrList_map]
  | some du =>
    simp [InstallationReportItem.toJson, InstallationReportItem.fromJson,
      metadata_round_trip, decOptDirectUrl_toJson, decStrList_map]

theorem decItems_map (items : List InstallationReportItem) :
    decItems (items.map InstallationReportItem.toJson) = some items := by
  induction items with
  | nil => rfl
  | cons it rest ih => simp [decItems, item_round_trip, ih]

/-- C9: parsing a serialized report yields the original report, for both the
compact and the pretty-printed serialization entry points, and both entry
points encode the same logical JSON document. -/
theorem pip_report_json_round_trip (report : PipReport) :
    PipReport.parse report.to_json = some report ∧
    PipReport.parse report.to_json_pretty = some report ∧
    report.to_json_pretty = report.to_json := by
  obtain ⟨install⟩ := report
  refine ⟨?_, ?_, rfl⟩ <;>
    simp [PipReport.to_json, PipReport.to_json_pretty, PipReport.parse, decItems_map]

theorem archive_info_hash_fields_invariant_witness :
    ((ArchiveInfo.mk none (some [("sha256", "aa")])).hash = none ∧
     (ArchiveInfo.mk none (some [("sha256", "aa")])).hashes =
       some (aggregateHashes registryHashDist.hashes) ∧
     (registryHashDist.hashes = [] →
       (ArchiveInfo.mk none (some [("sha256", "aa")])).hashes = some [])) ∧
    (ArchiveInfo.mk none (some [])).hashes = some [] :=
  ⟨archive_info_hash_fields_invariant registryHashDist "https://pypi.org/simple"
      (ArchiveInfo.mk none (some [("sha256", "aa")])) none (by decide),
   (archive_info_hash_fields_invariant registryNoHashDist "https://pypi.org/simple"
      (ArchiveInfo.mk none (some [])) none (by decide)).2.2 rfl⟩

end Uv
